import Mathlib

/-!
Verification of the `.lssnap` point-cloud viewer (`PointCloudViewer.tsx`).

The repository ships two variants of the viewer component (an orbit-controls
variant and a trackball-controls variant). Both contain the same binary
decoder `parseLssnap`; they differ in the subject-filter height fraction, the
camera framing policy and the autorotation mechanism. This file gives a
shallow embedding of those parts over exact rationals (ℚ stands for the
JavaScript float values; buffers are lists of bytes) and proves the claimed
properties about them.
-/

namespace PCV

instance {ε α : Type} [DecidableEq ε] [DecidableEq α] : DecidableEq (Except ε α) :=
  fun x y =>
    match x, y with
    | .ok a, .ok b => decidable_of_iff (a = b) (by simp)
    | .error e, .error f => decidable_of_iff (e = f) (by simp)
    | .ok _, .error _ => .isFalse (by simp)
    | .error _, .ok _ => .isFalse (by simp)

/-- A 3D vector of exact rationals, standing for a `THREE.Vector3`. -/
structure Vec3 where
  x : ℚ
  y : ℚ
  z : ℚ
deriving DecidableEq, Repr

/-- Errors `parseLssnap` can throw: the explicit format check, and the
`RangeError`s raised by `DataView` out-of-bounds reads and by negative
typed-array allocation sizes. -/
inductive DecodeError where
  | formatError
  | rangeError
deriving DecidableEq, Repr

/-- `DataView.getUint8`: returns byte `i` of the buffer, or throws a
`RangeError` when `i` is out of bounds. -/
def getU8 (buf : List (Fin 256)) (i : Nat) : Except DecodeError Nat :=
  match buf[i]? with
  | some b => .ok b.val
  | none => .error .rangeError

/-- `DataView.getInt16(i, true)`: little-endian signed 16-bit read. -/
def getI16 (buf : List (Fin 256)) (i : Nat) : Except DecodeError Int :=
  match getU8 buf i, getU8 buf (i + 1) with
  | .ok b0, .ok b1 =>
    .ok (if b0 + 256 * b1 < 32768 then (b0 + 256 * b1 : Int) else (b0 + 256 * b1 : Int) - 65536)
  | .error e, _ => .error e
  | _, .error e => .error e

/-- `DataView.getInt32(i, true)`: little-endian signed 32-bit read. -/
def getI32 (buf : List (Fin 256)) (i : Nat) : Except DecodeError Int :=
  match getU8 buf i, getU8 buf (i + 1), getU8 buf (i + 2), getU8 buf (i + 3) with
  | .ok b0, .ok b1, .ok b2, .ok b3 =>
    .ok (if b0 + 256 * b1 + 65536 * b2 + 16777216 * b3 < 2147483648
         then (b0 + 256 * b1 + 65536 * b2 + 16777216 * b3 : Int)
         else (b0 + 256 * b1 + 65536 * b2 + 16777216 * b3 : Int) - 4294967296)
  | .error e, _, _, _ => .error e
  | _, .error e, _, _ => .error e
  | _, _, .error e, _ => .error e
  | _, _, _, .error e => .error e

/-- One decoded JSON annotation record:
`{ type, positions?, radius?, color? }`. Optional fields are `Option`;
`positions` may be absent (`none`) as the build loop guards for it. -/
structure AnnRecord where
  type : String
  positions : Option (List ℚ)
  radius : Option ℚ
  color : Option (ℚ × ℚ × ℚ)
deriving DecidableEq, Repr

/-- The result of `parseLssnap` (`LssnapData` in the source): flat position
and color arrays plus the decoded annotation list. -/
structure LssnapData where
  vertexCount : Int
  positions : List ℚ
  colors : List ℚ
  annotations : List AnnRecord
deriving DecidableEq, Repr

/-- The vertex-record loop of `parseLssnap`: reads `n` 9-byte records
starting at `offset` (int16 x,y,z each ÷1000; uint8 r,g,b each ÷255),
in file order, accumulating the flat position and color lists. -/
def readVerticesAux (buf : List (Fin 256)) : Nat → Nat → Except DecodeError (List ℚ × List ℚ)
  | 0, _ => .ok ([], [])
  | n + 1, offset =>
    match getI16 buf offset, getI16 buf (offset + 2), getI16 buf (offset + 4),
        getU8 buf (offset + 6), getU8 buf (offset + 7), getU8 buf (offset + 8) with
    | .ok x, .ok y, .ok z, .ok r, .ok g, .ok b =>
      match readVerticesAux buf n (offset + 9) with
      | .ok (ps, cs) =>
        .ok ((x : ℚ) / 1000 :: (y : ℚ) / 1000 :: (z : ℚ) / 1000 :: ps,
             (r : ℚ) / 255 :: (g : ℚ) / 255 :: (b : ℚ) / 255 :: cs)
      | .error e => .error e
    | .error e, _, _, _, _, _ => .error e
    | _, .error e, _, _, _, _ => .error e
    | _, _, .error e, _, _, _ => .error e
    | _, _, _, .error e, _, _ => .error e
    | _, _, _, _, .error e, _ => .error e
    | _, _, _, _, _, .error e => .error e

/-- `parseLssnap`. The JSON step (`TextDecoder().decode` + `JSON.parse`,
yielding an annotation list or throwing) is abstracted as the parameter
`jsonParse`, `none` standing for a throw; the surrounding `try`/`catch`
turns any such throw — including the `RangeError` of an out-of-range
`Uint8Array` view — into the empty annotation list. A negative
`vertexCount` makes `new Float32Array(vertexCount * 3)` throw a
`RangeError`, modelled by the explicit negativity check. -/
def parseLssnap (jsonParse : List (Fin 256) → Option (List AnnRecord))
    (buf : List (Fin 256)) : Except DecodeError LssnapData :=
  match getU8 buf 0, getU8 buf 1, getU8 buf 2, getU8 buf 3 with
  | .ok m0, .ok m1, .ok m2, .ok version =>
    if m0 = 76 ∧ m1 = 83 ∧ m2 = 83 ∧ version = 1 then
      match getI32 buf 4, getI32 buf 8 with
      | .ok vertexCount, .ok annotJsonLen =>
        if vertexCount < 0 then .error .rangeError
        else
          match readVerticesAux buf vertexCount.toNat 16 with
          | .ok (positions, colors) =>
            .ok ⟨vertexCount, positions, colors,
              if 0 < annotJsonLen then
                if 16 + 9 * vertexCount.toNat + annotJsonLen.toNat ≤ buf.length then
                  match jsonParse ((buf.drop (16 + 9 * vertexCount.toNat)).take annotJsonLen.toNat) with
                  | some anns => anns
                  | none => []
                else []
              else []⟩
          | .error e => .error e
      | .error e, _ => .error e
      | _, .error e => .error e
    else .error .formatError
  | .error e, _, _, _ => .error e
  | _, .error e, _, _ => .error e
  | _, _, .error e, _ => .error e
  | _, _, _, .error e => .error e

/-- The first four buffer bytes are the ASCII literal `"LSS"` followed by
version byte `1`. -/
def headerOk (buf : List (Fin 256)) : Prop :=
  buf[0]? = some 76 ∧ buf[1]? = some 83 ∧ buf[2]? = some 83 ∧ buf[3]? = some 1

instance (buf : List (Fin 256)) : Decidable (headerOk buf) := by
  unfold headerOk; infer_instance

/-! ### Encoder for the wire layout (spec §6), used for the round-trip claim -/

/-- Truncate a natural number to one byte. -/
def mkByte (n : Nat) : Fin 256 := ⟨n % 256, Nat.mod_lt _ (by norm_num)⟩

/-- Little-endian two-byte encoding of a signed 16-bit value. -/
def encodeI16le (v : Int) : List (Fin 256) :=
  [mkByte (v % 65536).toNat, mkByte ((v % 65536).toNat / 256)]

/-- Little-endian four-byte encoding of a signed 32-bit value. -/
def encodeI32le (v : Int) : List (Fin 256) :=
  [mkByte (v % 4294967296).toNat, mkByte ((v % 4294967296).toNat / 256),
   mkByte ((v % 4294967296).toNat / 65536), mkByte ((v % 4294967296).toNat / 16777216)]

/-- One 9-byte wire vertex record: int16 x, y, z (coordinates scaled by
1000) then uint8 r, g, b. -/
def encodeVertex : (Int × Int × Int) × (Nat × Nat × Nat) → List (Fin 256)
  | ((x, y, z), (r, g, b)) =>
    encodeI16le x ++ encodeI16le y ++ encodeI16le z ++ [mkByte r, mkByte g, mkByte b]

/-- A full `.lssnap` buffer for the given scaled vertices: `"LSS"` + version 1,
`vertexCount` int32, annotation block length 0, 4 reserved bytes, then the
9-byte records in order from offset 16. -/
def encodeLssnap (verts : List ((Int × Int × Int) × (Nat × Nat × Nat))) : List (Fin 256) :=
  mkByte 76 :: mkByte 83 :: mkByte 83 :: mkByte 1 ::
    (encodeI32le verts.length ++ encodeI32le 0 ++
      [mkByte 0, mkByte 0, mkByte 0, mkByte 0] ++ verts.flatMap encodeVertex)

/-! ### Subject filter -/

/-- Componentwise minimum, as `THREE.Box3.expandByPoint` computes it. -/
def vmin (a b : Vec3) : Vec3 := ⟨min a.x b.x, min a.y b.y, min a.z b.z⟩

/-- Componentwise maximum. -/
def vmax (a b : Vec3) : Vec3 := ⟨max a.x b.x, max a.y b.y, max a.z b.z⟩

/-- Bounding box (`computeBoundingBox`) of a non-empty point list given as a
head point and the remaining points: the (min, max) corner pair. -/
def bboxFrom (p : Vec3) (rest : List Vec3) : Vec3 × Vec3 :=
  rest.foldl (fun mm q => (vmin mm.1 q, vmax mm.2 q)) (p, p)

/-- The filter loop body: walk the vertex/color pairs in order, keeping a
pair exactly when `x ≥ xCut ∧ z ≤ zCut ∧ y ≥ yCut`, appending kept
positions and colors in iteration order. -/
def filterLoop (xCut zCut yCut : ℚ) : List (Vec3 × Vec3) → List Vec3 × List Vec3
  | [] => ([], [])
  | (p, c) :: rest =>
    let (ps, cs) := filterLoop xCut zCut yCut rest
    if xCut ≤ p.x ∧ p.z ≤ zCut ∧ yCut ≤ p.y then (p :: ps, c :: cs) else (ps, cs)

/-- The subject filter: bounding box over all points, cutoffs
`xCut = centerX`, `zCut = minZ + zRange · depthFrac`,
`yCut = minY + yRange · heightFrac` (the source's `yCutMax`, used as a
lower bound), then the keep loop. The source uses `depthFrac = 0.75` and
`heightFrac = 0.45` (orbit variant) or `0.5` (trackball variant). An empty
snapshot filters to an empty subset (the loop body never runs). -/
def subjectFilter (depthFrac heightFrac : ℚ) : List Vec3 → List Vec3 → List Vec3 × List Vec3
  | [], _ => ([], [])
  | p :: rest, cols =>
    let (lo, hi) := bboxFrom p rest
    let xCut := (lo.x + hi.x) / 2
    let zCut := lo.z + (hi.z - lo.z) * depthFrac
    let yCut := lo.y + (hi.y - lo.y) * heightFrac
    filterLoop xCut zCut yCut ((p :: rest).zip cols)

/-! ### Camera framing -/

/-- A camera pose: position, look-at target (`controls.target`, which
`lookAt` also points the camera at), and up axis. -/
structure CameraPose where
  pos : Vec3
  target : Vec3
  up : Vec3
deriving DecidableEq, Repr

/-- Box midpoint (`Box3.getCenter`) of a non-empty point list; `0` sentinel
for the empty list, which no claim touches. -/
def boxCenter : List Vec3 → Vec3
  | [] => ⟨0, 0, 0⟩
  | p :: rest =>
    let (lo, hi) := bboxFrom p rest
    ⟨(lo.x + hi.x) / 2, (lo.y + hi.y) / 2, (lo.z + hi.z) / 2⟩

/-- Largest bounding-box extent `max(size.x, size.y, size.z)` of a
non-empty point list; `0` sentinel for the empty list. -/
def boxMaxDim : List Vec3 → ℚ
  | [] => 0
  | p :: rest =>
    let (lo, hi) := bboxFrom p rest
    max (hi.x - lo.x) (max (hi.y - lo.y) (hi.z - lo.z))

/-- Framing policy of the orbit variant: target = box center, camera
position `center + (−0.1, +0.25, +1.6)·maxDim`, up left at the THREE
camera default `+Y`, then `lookAt(center)`. -/
def framePolicyA : List Vec3 → Option CameraPose
  | [] => none
  | p :: rest =>
    let (lo, hi) := bboxFrom p rest
    let c : Vec3 := ⟨(lo.x + hi.x) / 2, (lo.y + hi.y) / 2, (lo.z + hi.z) / 2⟩
    let maxDim := max (hi.x - lo.x) (max (hi.y - lo.y) (hi.z - lo.z))
    some ⟨⟨c.x - maxDim * (1/10), c.y + maxDim * (1/4), c.z + maxDim * (8/5)⟩, c, ⟨0, 1, 0⟩⟩

/-- Framing policy of the trackball variant: `camera.up.set(0, 0, 1)`,
target = box center, position `center + (−0.5, −2.8, 0)·maxDim`, then
`lookAt(center)`. -/
def framePolicyB : List Vec3 → Option CameraPose
  | [] => none
  | p :: rest =>
    let (lo, hi) := bboxFrom p rest
    let c : Vec3 := ⟨(lo.x + hi.x) / 2, (lo.y + hi.y) / 2, (lo.z + hi.z) / 2⟩
    let maxDim := max (hi.x - lo.x) (max (hi.y - lo.y) (hi.z - lo.z))
    some ⟨⟨c.x - maxDim * (1/2), c.y - maxDim * (14/5), c.z⟩, c, ⟨0, 0, 1⟩⟩

/-! ### Annotation overlay builder -/

/-- A drawable overlay primitive added to the annotation group. A `stroke`
vertex component is `none` when the source reads past the end of the
`positions` array (JavaScript `undefined`, a NaN coordinate). -/
inductive Prim where
  | marker (cx cy cz radius : ℚ) (color : ℚ × ℚ × ℚ)
  | ring (cx cy cz radius : ℚ) (color : ℚ × ℚ × ℚ)
  | stroke (pts : List (Option ℚ × Option ℚ × Option ℚ)) (color : ℚ × ℚ × ℚ)
deriving DecidableEq, Repr

/-- `ann.color ? ann.color[i]/255 : default`: the warm default is
`(1, 0.4, 0.4)`. -/
def resolveColor : Option (ℚ × ℚ × ℚ) → ℚ × ℚ × ℚ
  | some (r, g, b) => (r / 255, g / 255, b / 255)
  | none => (1, 2/5, 2/5)

/-- The freehand vertex loop `for (i = 0; i < positions.length; i += 3)`:
each step reads indices `i`, `i+1`, `i+2`, out-of-range reads giving
`undefined` (`none`). -/
def strokePts : List ℚ → List (Option ℚ × Option ℚ × Option ℚ)
  | [] => []
  | [a] => [(some a, none, none)]
  | [a, b] => [(some a, some b, none)]
  | a :: b :: c :: rest => (some a, some b, some c) :: strokePts rest

/-- Safe indexing standing for `positions[i]` where the source has already
guaranteed the index is in range. -/
def nthQ (l : List ℚ) (i : Nat) : ℚ := (l.get? i).getD 0

/-- The body of the annotation build loop for one record: skip when
`positions` is absent or shorter than 3; `point` builds a sphere marker of
radius `(radius > 0.01 ? radius : 0.12) * 0.3`; `circle` builds the
65-point ring of radius `(radius > 0 ? radius : 0.05)` centred at the
record's point in the plane of its z; `freehand` with ≥ 6 values builds an
open polyline through the flattened triples; anything else builds
nothing. -/
def buildAnn (ann : AnnRecord) : List Prim :=
  match ann.positions with
  | none => []
  | some ps =>
    if ps.length < 3 then []
    else
      let color := resolveColor ann.color
      if ann.type = "point" then
        let radius := match ann.radius with
          | some r => if 1/100 < r then r else 3/25
          | none => 3/25
        [.marker (nthQ ps 0) (nthQ ps 1) (nthQ ps 2) (radius * (3/10)) color]
      else if ann.type = "circle" then
        let radius := match ann.radius with
          | some r => if 0 < r then r else 1/20
          | none => 1/20
        [.ring (nthQ ps 0) (nthQ ps 1) (nthQ ps 2) radius color]
      else if ann.type = "freehand" then
        if 6 ≤ ps.length then [.stroke (strokePts ps) color] else []
      else []

/-- The full build loop over the decoded annotation list, in input order. -/
def buildAnnotations (anns : List AnnRecord) : List Prim := anns.flatMap buildAnn

/-! ### Trackball-variant autorotation -/

/-- The per-frame camera state the trackball `animate` callback touches. -/
structure ViewerState where
  camPos : Vec3
  target : Vec3
  up : Vec3
  autoRotating : Bool
deriving DecidableEq, Repr

/-- The manual autorotation step of the trackball variant's `animate`:
`dx, dz` are the position offsets from the target in x and z, and the new
position is the 2D rotation of `(dx, dz)` in the x–z plane, y unchanged.
`c` and `s` stand for `Math.cos(0.0005)` and `Math.sin(0.0005)`. -/
def autorotateStep (c s : ℚ) (st : ViewerState) : ViewerState :=
  let dx := st.camPos.x - st.target.x
  let dz := st.camPos.z - st.target.z
  { st with camPos := ⟨st.target.x + dx * c - dz * s, st.camPos.y, st.target.z + dx * s + dz * c⟩ }

/-- One frame of the trackball variant's `animate` callback:
the synthetic rotation runs when the autorotate flag is set, and only then
does `controls.update()` — abstracted as `controlsUpdate` — run. -/
def animateFrame (controlsUpdate : ViewerState → ViewerState) (c s : ℚ)
    (st : ViewerState) : ViewerState :=
  controlsUpdate (if st.autoRotating then autorotateStep c s st else st)

/-- Component of `v` along the direction `u` (the numerator of the
projection; for a unit `u` this is the signed length along `u`). -/
def vdot (a b : Vec3) : ℚ := a.x * b.x + a.y * b.y + a.z * b.z

/-- The component of the camera offset `camPos − target` along the camera's
up axis. A rotation in the plane orthogonal to up leaves it unchanged. -/
def upComponent (st : ViewerState) : ℚ :=
  vdot ⟨st.camPos.x - st.target.x, st.camPos.y - st.target.y, st.camPos.z - st.target.z⟩ st.up

/-! ### Expected decoder outputs and test fixtures -/

/-- The flat position list a faithful decoder must produce for the given
scaled vertices: each int16 coordinate divided by 1000. -/
def posOf (verts : List ((Int × Int × Int) × (Nat × Nat × Nat))) : List ℚ :=
  verts.flatMap fun v => [(v.1.1 : ℚ) / 1000, (v.1.2.1 : ℚ) / 1000, (v.1.2.2 : ℚ) / 1000]

/-- The flat color list a faithful decoder must produce for the given
vertices: each byte divided by 255. -/
def colOf (verts : List ((Int × Int × Int) × (Nat × Nat × Nat))) : List ℚ :=
  verts.flatMap fun v => [(v.2.1 : ℚ) / 255, (v.2.2.1 : ℚ) / 255, (v.2.2.2 : ℚ) / 255]

/-- Axis sample values for a synthetic cube spanning `[0, 10]`, including
the exact cutoff boundary values 5 and 7.5. -/
def cubeAxis : List ℚ := [0, 5, 15/2, 10]

/-- A synthetic cube of points spanning `[0, 10]` on each axis. -/
def cubeGrid : List Vec3 :=
  cubeAxis.flatMap fun x => cubeAxis.flatMap fun y => cubeAxis.map fun z => ⟨x, y, z⟩

/-- The keep predicate exactly as the claim states it: `x ≥ centerX`,
`z ≤ minZ + zRange·depthFraction`, `y ≥ minY + yRange·heightFraction`,
with the bounding box given by its min and max corners. -/
def keepPred (lo hi : Vec3) (depthFrac heightFrac : ℚ) (p : Vec3) : Prop :=
  (lo.x + hi.x) / 2 ≤ p.x ∧ p.z ≤ lo.z + (hi.z - lo.z) * depthFrac ∧
    lo.y + (hi.y - lo.y) * heightFrac ≤ p.y

instance (lo hi : Vec3) (depthFrac heightFrac : ℚ) (p : Vec3) :
    Decidable (keepPred lo hi depthFrac heightFrac p) := by
  unfold keepPred; infer_instance

/-! ### Lemmas about the byte readers -/

theorem getU8_err_eq {buf : List (Fin 256)} {i : Nat} {e : DecodeError}
    (h : getU8 buf i = .error e) : e = .rangeError := by
  unfold getU8 at h
  cases hg : buf[i]? <;> rw [hg] at h <;> simp_all

theorem getU8_ok_lt {buf : List (Fin 256)} {i : Nat} {b : Nat}
    (h : getU8 buf i = .ok b) : i < buf.length := by
  unfold getU8 at h
  cases hg : buf[i]? <;> rw [hg] at h
  · simp at h
  · exact (List.getElem?_eq_some.mp hg).1

theorem getU8_ok_of_lt {buf : List (Fin 256)} {i : Nat} (h : i < buf.length) :
    ∃ b, getU8 buf i = .ok b := by
  unfold getU8
  rw [List.getElem?_eq_getElem h]
  exact ⟨_, rfl⟩

theorem getU8_err_of_le {buf : List (Fin 256)} {i : Nat} (h : buf.length ≤ i) :
    getU8 buf i = .error .rangeError := by
  unfold getU8
  rw [List.getElem?_eq_none h]

theorem getI16_err_eq {buf : List (Fin 256)} {i : Nat} {e : DecodeError}
    (h : getI16 buf i = .error e) : e = .rangeError := by
  unfold getI16 at h
  cases h0 : getU8 buf i <;> cases h1 : getU8 buf (i + 1) <;>
    simp [h0, h1] at h <;>
    first
    | exact getU8_err_eq (h ▸ h0)
    | exact getU8_err_eq (h ▸ h1)

theorem getI16_ok_of_le {buf : List (Fin 256)} {i : Nat} (h : i + 2 ≤ buf.length) :
    ∃ v, getI16 buf i = .ok v := by
  obtain ⟨b0, h0⟩ := @getU8_ok_of_lt buf i (by omega)
  obtain ⟨b1, h1⟩ := @getU8_ok_of_lt buf (i + 1) (by omega)
  unfold getI16
  rw [h0, h1]
  exact ⟨_, rfl⟩

theorem getI32_err_eq {buf : List (Fin 256)} {i : Nat} {e : DecodeError}
    (h : getI32 buf i = .error e) : e = .rangeError := by
  unfold getI32 at h
  cases h0 : getU8 buf i <;> cases h1 : getU8 buf (i + 1) <;>
    cases h2 : getU8 buf (i + 2) <;> cases h3 : getU8 buf (i + 3) <;>
    simp [h0, h1, h2, h3] at h <;>
    first
    | exact getU8_err_eq (h ▸ h0)
    | exact getU8_err_eq (h ▸ h1)
    | exact getU8_err_eq (h ▸ h2)
    | exact getU8_err_eq (h ▸ h3)

theorem getI32_ok_of_le {buf : List (Fin 256)} {i : Nat} (h : i + 4 ≤ buf.length) :
    ∃ v, getI32 buf i = .ok v := by
  obtain ⟨b0, h0⟩ := @getU8_ok_of_lt buf i (by omega)
  obtain ⟨b1, h1⟩ := @getU8_ok_of_lt buf (i + 1) (by omega)
  obtain ⟨b2, h2⟩ := @getU8_ok_of_lt buf (i + 2) (by omega)
  obtain ⟨b3, h3⟩ := @getU8_ok_of_lt buf (i + 3) (by omega)
  unfold getI32
  rw [h0, h1, h2, h3]
  exact ⟨_, rfl⟩

/-! ### Lemmas about the vertex-record loop -/

theorem readVerticesAux_err {buf : List (Fin 256)} :
    ∀ {n offset : Nat} {e : DecodeError},
      readVerticesAux buf n offset = .error e → e = .rangeError := by
  intro n
  induction n with
  | zero => intro offset e h; simp [readVerticesAux] at h
  | succ n ih =>
    intro offset e h
    unfold readVerticesAux at h
    split at h
    · split at h
      · simp at h
      · injection h with h2
        rw [← h2]
        exact ih (by assumption)
    all_goals injection h with h2
    all_goals rw [← h2]
    all_goals first
      | exact getI16_err_eq (by assumption)
      | exact getU8_err_eq (by assumption)

theorem readVerticesAux_ok_len {buf : List (Fin 256)} :
    ∀ {n offset : Nat} {ps cs : List ℚ},
      readVerticesAux buf n offset = .ok (ps, cs) →
      ps.length = 3 * n ∧ cs.length = 3 * n := by
  intro n
  induction n with
  | zero =>
    intro offset ps cs h
    simp [readVerticesAux] at h
    obtain ⟨h1, h2⟩ := h
    subst h1; subst h2
    simp
  | succ n ih =>
    intro offset ps cs h
    unfold readVerticesAux at h
    split at h
    · split at h
      · rename_i heq
        injection h with h2
        injection h2 with hp hc
        obtain ⟨l1, l2⟩ := ih heq
        constructor
        · rw [← hp]; simp [l1]; ring
        · rw [← hc]; simp [l2]; ring
      · simp at h
    all_goals simp at h

theorem readVerticesAux_ok_of_le {buf : List (Fin 256)} :
    ∀ {n offset : Nat}, offset + 9 * n ≤ buf.length →
      ∃ pr, readVerticesAux buf n offset = .ok pr := by
  intro n
  induction n with
  | zero => intro offset _; exact ⟨_, rfl⟩
  | succ n ih =>
    intro offset h
    obtain ⟨x, hx⟩ := @getI16_ok_of_le buf offset (by omega)
    obtain ⟨y, hy⟩ := @getI16_ok_of_le buf (offset + 2) (by omega)
    obtain ⟨z, hz⟩ := @getI16_ok_of_le buf (offset + 4) (by omega)
    obtain ⟨r, hr⟩ := @getU8_ok_of_lt buf (offset + 6) (by omega)
    obtain ⟨g, hg⟩ := @getU8_ok_of_lt buf (offset + 7) (by omega)
    obtain ⟨b, hb⟩ := @getU8_ok_of_lt buf (offset + 8) (by omega)
    obtain ⟨⟨ps, cs⟩, hrec⟩ := @ih (offset + 9) (by omega)
    exact ⟨((x : ℚ) / 1000 :: (y : ℚ) / 1000 :: (z : ℚ) / 1000 :: ps,
            (r : ℚ) / 255 :: (g : ℚ) / 255 :: (b : ℚ) / 255 :: cs), by
      unfold readVerticesAux
      rw [hx, hy, hz, hr, hg, hb, hrec]⟩

theorem readVerticesAux_short {buf : List (Fin 256)} :
    ∀ {n offset : Nat}, 0 < n → buf.length < offset + 9 * n →
      readVerticesAux buf n offset = .error .rangeError := by
  intro n
  induction n with
  | zero => intro offset h; omega
  | succ n ih =>
    intro offset _ hlen
    unfold readVerticesAux
    cases hx : getI16 buf offset
    case error e => simp [getI16_err_eq hx]
    case ok x =>
    cases hy : getI16 buf (offset + 2)
    case error e => simp [getI16_err_eq hy]
    case ok y =>
    cases hz : getI16 buf (offset + 4)
    case error e => simp [getI16_err_eq hz]
    case ok z =>
    cases hr : getU8 buf (offset + 6)
    case error e => simp [getU8_err_eq hr]
    case ok r =>
    cases hg : getU8 buf (offset + 7)
    case error e => simp [getU8_err_eq hg]
    case ok g =>
    cases hb : getU8 buf (offset + 8)
    case error e => simp [getU8_err_eq hb]
    case ok b =>
    have h8 : offset + 8 < buf.length := getU8_ok_lt hb
    have hn : 0 < n := by omega
    have hrec := @ih (offset + 9) hn (by omega)
    rw [hrec]

/-! ### Lemmas about `parseLssnap` itself -/

theorem getElem?_of_getU8_ok {buf : List (Fin 256)} {i b : Nat}
    (h : getU8 buf i = .ok b) (hb : b < 256) : buf[i]? = some ⟨b, hb⟩ := by
  unfold getU8 at h
  cases hg : buf[i]? <;> rw [hg] at h
  · simp at h
  · injection h with hv
    exact congrArg some (Fin.ext hv)

/-- With a valid header, `parseLssnap` never throws the format error: every
failure past the header check is a `RangeError`. -/
theorem parseLssnap_no_formatError_of_headerOk
    (jsonParse : List (Fin 256) → Option (List AnnRecord)) (buf : List (Fin 256))
    (hok : headerOk buf) :
    parseLssnap jsonParse buf ≠ .error .formatError := by
  obtain ⟨c0, c1, c2, c3⟩ := hok
  have h0 : getU8 buf 0 = .ok 76 := by unfold getU8; rw [c0]; rfl
  have h1 : getU8 buf 1 = .ok 83 := by unfold getU8; rw [c1]; rfl
  have h2 : getU8 buf 2 = .ok 83 := by unfold getU8; rw [c2]; rfl
  have h3 : getU8 buf 3 = .ok 1 := by unfold getU8; rw [c3]; rfl
  intro hcontra
  unfold parseLssnap at hcontra
  rw [h0, h1, h2, h3] at hcontra
  simp only [show ((76:Nat) = 76 ∧ (83:Nat) = 83 ∧ (83:Nat) = 83 ∧ (1:Nat) = 1) = True by
    simp] at hcontra
  simp at hcontra
  split at hcontra
  · split at hcontra
    · simp at hcontra
    · split at hcontra
      · simp at hcontra
      · injection hcontra with h4
        have h5 := readVerticesAux_err (by assumption)
        simp_all
  all_goals injection hcontra with h4
  all_goals have h5 := getI32_err_eq (by assumption)
  all_goals simp_all

/-- Claim C1: a buffer of at least four bytes whose first three bytes are not
the ASCII literal `"LSS"` or whose fourth byte is not `1` always decodes to
the format error, regardless of the remaining content; and a buffer whose
first four bytes are `"LSS"` followed by `0x01` never decodes to the format
error. -/
theorem parseLssnap_formatError_iff_bad_header
    (jsonParse : List (Fin 256) → Option (List AnnRecord)) (buf : List (Fin 256))
    (h4 : 4 ≤ buf.length) :
    (¬ headerOk buf → parseLssnap jsonParse buf = .error .formatError) ∧
    (headerOk buf → parseLssnap jsonParse buf ≠ .error .formatError) := by
  constructor
  · intro hno
    obtain ⟨b0, h0⟩ := @getU8_ok_of_lt buf 0 (by omega)
    obtain ⟨b1, h1⟩ := @getU8_ok_of_lt buf 1 (by omega)
    obtain ⟨b2, h2⟩ := @getU8_ok_of_lt buf 2 (by omega)
    obtain ⟨b3, h3⟩ := @getU8_ok_of_lt buf 3 (by omega)
    have hcond : ¬(b0 = 76 ∧ b1 = 83 ∧ b2 = 83 ∧ b3 = 1) := by
      intro ⟨e0, e1, e2, e3⟩
      subst e0; subst e1; subst e2; subst e3
      exact hno ⟨getElem?_of_getU8_ok h0 (by omega), getElem?_of_getU8_ok h1 (by omega),
        getElem?_of_getU8_ok h2 (by omega), getElem?_of_getU8_ok h3 (by omega)⟩
    unfold parseLssnap
    rw [h0, h1, h2, h3]
    simp [hcond]
  · exact parseLssnap_no_formatError_of_headerOk jsonParse buf

/-- Claim C2: whenever `parseLssnap` succeeds, the returned snapshot's flat
position and color arrays both have length `3 · vertexCount`, where
`vertexCount` is the little-endian int32 read from header bytes 4–7 (and is
non-negative); the decoder never emits a mismatched positions/colors
pair. -/
theorem parseLssnap_lengths (jsonParse : List (Fin 256) → Option (List AnnRecord))
    (buf : List (Fin 256)) (d : LssnapData)
    (h : parseLssnap jsonParse buf = .ok d) :
    getI32 buf 4 = .ok d.vertexCount ∧ 0 ≤ d.vertexCount ∧
    d.positions.length = 3 * d.vertexCount.toNat ∧
    d.colors.length = 3 * d.vertexCount.toNat := by
  unfold parseLssnap at h
  split at h
  · split at h
    · split at h
      · split at h
        · simp at h
        · split at h
          · injection h with h2
            obtain ⟨hl1, hl2⟩ := readVerticesAux_ok_len (by assumption)
            refine ⟨?_, ?_, ?_, ?_⟩
            · simp [← h2]; assumption
            · simp [← h2]; omega
            · simp [← h2]; exact hl1
            · simp [← h2]; exact hl2
          · simp at h
      all_goals simp at h
    · simp at h
  all_goals simp at h

theorem getU8_header {buf : List (Fin 256)} (hok : headerOk buf) :
    getU8 buf 0 = .ok 76 ∧ getU8 buf 1 = .ok 83 ∧
    getU8 buf 2 = .ok 83 ∧ getU8 buf 3 = .ok 1 := by
  obtain ⟨c0, c1, c2, c3⟩ := hok
  refine ⟨?_, ?_, ?_, ?_⟩ <;> unfold getU8
  · rw [c0]; rfl
  · rw [c1]; rfl
  · rw [c2]; rfl
  · rw [c3]; rfl

theorem getI32_ok_len {buf : List (Fin 256)} {i : Nat} {v : Int}
    (h : getI32 buf i = .ok v) : i + 4 ≤ buf.length := by
  unfold getI32 at h
  cases h0 : getU8 buf i <;> rw [h0] at h <;>
    cases h1 : getU8 buf (i + 1) <;> rw [h1] at h <;>
    cases h2 : getU8 buf (i + 2) <;> rw [h2] at h <;>
    cases h3 : getU8 buf (i + 3) <;> rw [h3] at h <;>
    simp at h
  have := getU8_ok_lt h3
  omega

/-- The success shape of `parseLssnap`: with a valid header, non-negative
vertex count and enough bytes for the vertex records, decoding returns the
loop's positions and colors together with the annotation expression. -/
theorem parseLssnap_ok_shape (jsonParse : List (Fin 256) → Option (List AnnRecord))
    (buf : List (Fin 256)) (vc len : Int) (ps cs : List ℚ)
    (hok : headerOk buf) (hvc : getI32 buf 4 = .ok vc) (hlen : getI32 buf 8 = .ok len)
    (hvcn : 0 ≤ vc) (hRV : readVerticesAux buf vc.toNat 16 = .ok (ps, cs)) :
    parseLssnap jsonParse buf = .ok ⟨vc, ps, cs,
      if 0 < len then
        if 16 + 9 * vc.toNat + len.toNat ≤ buf.length then
          match jsonParse ((buf.drop (16 + 9 * vc.toNat)).take len.toNat) with
          | some anns => anns
          | none => []
        else []
      else []⟩ := by
  obtain ⟨h0, h1, h2, h3⟩ := getU8_header hok
  unfold parseLssnap
  rw [h0, h1, h2, h3, hvc, hlen]
  have hneg : ¬ vc < 0 := by omega
  simp only [hneg]
  rw [hRV]
  simp

/-- Claim C7 (amended): with a valid header and enough bytes for the
vertex records, only a *throwing* annotation parse degrades to an empty
list: when the block length is positive and the JSON parse throws
(`jsonParse = none`, malformed text) or the byte range itself is out of
bounds, decode still succeeds with an empty annotation list; with
`annotationBlockLength ≤ 0` the annotation list is empty and no parse is
attempted (the result does not depend on the parse function at all); but a
parse that succeeds is assigned unvalidated — whatever record list it
produces, well-shaped or not, becomes the snapshot's annotations
verbatim. -/
theorem parseLssnap_annotation_tolerance
    (jsonParse : List (Fin 256) → Option (List AnnRecord))
    (buf : List (Fin 256)) (vc len : Int)
    (hok : headerOk buf) (hvc : getI32 buf 4 = .ok vc) (hlen : getI32 buf 8 = .ok len)
    (hvcn : 0 ≤ vc) (hbuf : 16 + 9 * vc.toNat ≤ buf.length) :
    (0 < len →
      (jsonParse ((buf.drop (16 + 9 * vc.toNat)).take len.toNat) = none ∨
        buf.length < 16 + 9 * vc.toNat + len.toNat) →
      ∃ d, parseLssnap jsonParse buf = .ok d ∧ d.annotations = []) ∧
    (len ≤ 0 →
      (∃ d, parseLssnap jsonParse buf = .ok d ∧ d.annotations = []) ∧
      ∀ q, parseLssnap jsonParse buf = parseLssnap q buf) ∧
    (∀ anns : List AnnRecord, 0 < len → 16 + 9 * vc.toNat + len.toNat ≤ buf.length →
      jsonParse ((buf.drop (16 + 9 * vc.toNat)).take len.toNat) = some anns →
      ∃ d, parseLssnap jsonParse buf = .ok d ∧ d.annotations = anns) := by
  obtain ⟨⟨ps, cs⟩, hRV⟩ := @readVerticesAux_ok_of_le buf vc.toNat 16 (by omega)
  refine ⟨?_, ?_, ?_⟩
  · intro hpos hfail
    refine ⟨⟨vc, ps, cs, []⟩, ?_, rfl⟩
    rw [parseLssnap_ok_shape jsonParse buf vc len ps cs hok hvc hlen hvcn hRV]
    rw [if_pos hpos]
    rcases hfail with hnone | hshort
    · split
      · rw [hnone]
      · rfl
    · rw [if_neg (by omega)]
  · intro hnonpos
    have hshape := parseLssnap_ok_shape jsonParse buf vc len ps cs hok hvc hlen hvcn hRV
    rw [if_neg (by omega)] at hshape
    refine ⟨⟨⟨vc, ps, cs, []⟩, hshape, rfl⟩, ?_⟩
    intro q
    have hshape2 := parseLssnap_ok_shape q buf vc len ps cs hok hvc hlen hvcn hRV
    rw [if_neg (by omega)] at hshape2
    rw [hshape, hshape2]
  · intro anns hpos hroom hsome
    refine ⟨⟨vc, ps, cs, anns⟩, ?_, rfl⟩
    rw [parseLssnap_ok_shape jsonParse buf vc len ps cs hok hvc hlen hvcn hRV]
    rw [if_pos hpos, if_pos hroom, hsome]

/-- Claim C7 counterexample: a wrong-shaped annotation block that parses
without throwing is not replaced by an empty list. `JSON.parse` throws only
on malformed text; on well-formed JSON of the wrong shape it succeeds, and
the source assigns the result unvalidated (`annotations = JSON.parse(annotStr)`).
Modelled by a parse step returning the junk record list `[{type: "bogus"}]`:
decode returns that junk verbatim as the snapshot's annotations, which are
not the empty list the claim promises for any wrong-shape parse failure. -/
theorem parseLssnap_wrong_shape_passthrough :
    parseLssnap (fun _ => some [⟨"bogus", none, none, none⟩])
      [76, 83, 83, 1, 0, 0, 0, 0, 1, 0, 0, 0, 0, 0, 0, 0, 65] =
      .ok ⟨0, [], [], [⟨"bogus", none, none, none⟩]⟩ ∧
    ([⟨"bogus", none, none, none⟩] : List AnnRecord) ≠ [] :=
  ⟨rfl, by simp⟩

/-- Claim C10 (amended): with a valid `"LSS"`+1 header, `parseLssnap`
throws the range error — distinct from the format error — when the int32
`vertexCount` is negative, or when `vertexCount` is positive and the buffer
is shorter than `16 + 9·vertexCount` bytes, or when the buffer is too short
for the annotation-length field itself (fewer than 12 bytes). (The case
`vertexCount = 0` with a buffer of at least 12 bytes decodes successfully
even though the buffer is shorter than 16 bytes; see the counterexample.) -/
theorem parseLssnap_rangeError_cases
    (jsonParse : List (Fin 256) → Option (List AnnRecord))
    (buf : List (Fin 256)) (vc : Int)
    (hok : headerOk buf) (hvc : getI32 buf 4 = .ok vc)
    (hbad : vc < 0 ∨ (0 < vc ∧ (buf.length : Int) < 16 + 9 * vc) ∨ buf.length < 12) :
    parseLssnap jsonParse buf = .error .rangeError ∧
    parseLssnap jsonParse buf ≠ .error .formatError := by
  obtain ⟨h0, h1, h2, h3⟩ := getU8_header hok
  have hmain : parseLssnap jsonParse buf = .error .rangeError := by
    unfold parseLssnap
    rw [h0, h1, h2, h3, hvc]
    cases h8 : getI32 buf 8
    case error e => simp [getI32_err_eq h8]
    case ok len =>
      have h12 : 12 ≤ buf.length := getI32_ok_len h8
      rcases hbad with hneg | ⟨hpos, hshort⟩ | hlt12
      · simp [hneg]
      · have hnneg : ¬ vc < 0 := by omega
        have hloop : readVerticesAux buf vc.toNat 16 = .error .rangeError :=
          readVerticesAux_short (by omega) (by omega)
        simp [hnneg, hloop]
      · omega
  exact ⟨hmain, by rw [hmain]; simp⟩

/-- Claim C10 counterexample: a 12-byte buffer with a valid header and
`vertexCount = 0` is shorter than `16 + 9·vertexCount = 16` bytes, yet
`parseLssnap` succeeds instead of throwing a range error. -/
theorem parseLssnap_short_zero_vertices_ok :
    headerOk [76, 83, 83, 1, 0, 0, 0, 0, 0, 0, 0, 0] ∧
    getI32 [76, 83, 83, 1, 0, 0, 0, 0, 0, 0, 0, 0] 4 = .ok 0 ∧
    ([76, 83, 83, 1, 0, 0, 0, 0, 0, 0, 0, 0] : List (Fin 256)).length < 16 + 9 * 0 ∧
    parseLssnap (fun _ => none) [76, 83, 83, 1, 0, 0, 0, 0, 0, 0, 0, 0] =
      .ok ⟨0, [], [], []⟩ := by
  refine ⟨by decide, by rfl, by decide, by rfl⟩

/-! ### Round-trip lemmas: reading back the encoded wire layout -/

theorem getU8_shift (pre l : List (Fin 256)) (k : Nat) :
    getU8 (pre ++ l) (pre.length + k) = getU8 l k := by
  unfold getU8
  rw [List.getElem?_append_right (by omega)]
  simp

theorem getI16_shift (pre l : List (Fin 256)) (k : Nat) :
    getI16 (pre ++ l) (pre.length + k) = getI16 l k := by
  unfold getI16
  rw [show pre.length + k + 1 = pre.length + (k + 1) by omega]
  rw [getU8_shift, getU8_shift]

theorem getI32_shift (pre l : List (Fin 256)) (k : Nat) :
    getI32 (pre ++ l) (pre.length + k) = getI32 l k := by
  unfold getI32
  rw [show pre.length + k + 1 = pre.length + (k + 1) by omega,
    show pre.length + k + 2 = pre.length + (k + 2) by omega,
    show pre.length + k + 3 = pre.length + (k + 3) by omega]
  rw [getU8_shift, getU8_shift, getU8_shift, getU8_shift]

theorem getI16_encoded (v : Int) (rest : List (Fin 256))
    (h1 : -32767 ≤ v) (h2 : v ≤ 32767) :
    getI16 (mkByte (v % 65536).toNat :: mkByte ((v % 65536).toNat / 256) :: rest) 0 = .ok v := by
  unfold getI16 getU8 mkByte
  simp only [List.getElem?_cons_zero, List.getElem?_cons_succ, Except.ok.injEq]
  split <;> omega

theorem getI32_encoded_nat (n : Nat) (rest : List (Fin 256)) (h : n < 2147483648) :
    getI32 (mkByte ((n : Int) % 4294967296).toNat ::
      mkByte (((n : Int) % 4294967296).toNat / 256) ::
      mkByte (((n : Int) % 4294967296).toNat / 65536) ::
      mkByte (((n : Int) % 4294967296).toNat / 16777216) :: rest) 0 = .ok n := by
  unfold getI32 getU8 mkByte
  simp only [List.getElem?_cons_zero, List.getElem?_cons_succ, Except.ok.injEq]
  split <;> omega

theorem getU8_cons_zero (a : Fin 256) (l : List (Fin 256)) :
    getU8 (a :: l) 0 = .ok a.val := by
  unfold getU8; simp

theorem getU8_cons_succ (a : Fin 256) (l : List (Fin 256)) (k : Nat) :
    getU8 (a :: l) (k + 1) = getU8 l k := by
  unfold getU8; simp

theorem getI16_cons2 (a b : Fin 256) (l : List (Fin 256)) (k : Nat) :
    getI16 (a :: b :: l) (k + 2) = getI16 l k := by
  unfold getI16
  rw [show k + 2 = k + 1 + 1 by omega]
  simp only [getU8_cons_succ]

theorem getI16_shift0 (pre l : List (Fin 256)) :
    getI16 (pre ++ l) pre.length = getI16 l 0 := by
  simpa using getI16_shift pre l 0

/-- Reading `verts.length` 9-byte records starting right after an arbitrary
prefix of the encoded buffer recovers exactly the scaled coordinates ÷1000
and the color bytes ÷255, in file order. -/
theorem readVerticesAux_encode (verts : List ((Int × Int × Int) × (Nat × Nat × Nat))) :
    ∀ pre : List (Fin 256),
      (∀ v ∈ verts, -32767 ≤ v.1.1 ∧ v.1.1 ≤ 32767 ∧ -32767 ≤ v.1.2.1 ∧ v.1.2.1 ≤ 32767 ∧
        -32767 ≤ v.1.2.2 ∧ v.1.2.2 ≤ 32767) →
      (∀ v ∈ verts, v.2.1 < 256 ∧ v.2.2.1 < 256 ∧ v.2.2.2 < 256) →
      readVerticesAux (pre ++ verts.flatMap encodeVertex) verts.length pre.length =
        .ok (posOf verts, colOf verts) := by
  induction verts with
  | nil => intro pre _ _; simp [posOf, colOf, readVerticesAux]
  | cons v vs ih =>
    intro pre hb hc
    obtain ⟨⟨x, y, z⟩, r, g, b⟩ := v
    obtain ⟨hx1, hx2, hy1, hy2, hz1, hz2⟩ := hb _ (List.mem_cons_self _ _)
    obtain ⟨hr, hg, hbb⟩ := hc _ (List.mem_cons_self _ _)
    have hbv := fun w hw => hb w (List.mem_cons_of_mem _ hw)
    have hcv := fun w hw => hc w (List.mem_cons_of_mem _ hw)
    have hrec := ih (pre ++ [mkByte (x % 65536).toNat, mkByte ((x % 65536).toNat / 256),
      mkByte (y % 65536).toNat, mkByte ((y % 65536).toNat / 256),
      mkByte (z % 65536).toNat, mkByte ((z % 65536).toNat / 256),
      mkByte r, mkByte g, mkByte b]) hbv hcv
    simp only [List.append_assoc, List.cons_append, List.nil_append, List.length_append,
      List.length_cons, List.length_nil] at hrec
    simp only [List.flatMap_cons, encodeVertex, encodeI16le, List.cons_append, List.nil_append,
      List.append_assoc, List.length_cons]
    unfold readVerticesAux
    rw [getI16_shift0 pre]
    rw [getI16_shift pre _ 2, getI16_shift pre _ 4]
    rw [getU8_shift pre _ 6, getU8_shift pre _ 7, getU8_shift pre _ 8]
    simp only [getI16_cons2, getU8_cons_succ, getU8_cons_zero]
    rw [getI16_encoded x _ hx1 hx2, getI16_encoded y _ hy1 hy2, getI16_encoded z _ hz1 hz2]
    rw [show (pre.length + 9 : Nat) = pre.length + 9 by rfl] at hrec
    rw [hrec]
    simp [posOf, colOf, mkByte, Nat.mod_eq_of_lt hr, Nat.mod_eq_of_lt hg, Nat.mod_eq_of_lt hbb]

theorem getI32_zeros (rest : List (Fin 256)) :
    getI32 (mkByte 0 :: mkByte 0 :: mkByte 0 :: mkByte 0 :: rest) 0 = .ok 0 := by
  unfold getI32 getU8 mkByte
  simp

theorem getI32_cons_succ (a : Fin 256) (l : List (Fin 256)) (k : Nat) :
    getI32 (a :: l) (k + 1) = getI32 l k := by
  unfold getI32
  rw [show k + 1 + 2 = k + 2 + 1 by omega, show k + 1 + 3 = k + 3 + 1 by omega]
  simp only [getU8_cons_succ]

/-- Claim C3: the decode of an encoded point set is exact. For any list of
points whose coordinates are exact multiples of 0.001 within ±32.767 —
given here by their int16 scaled values in [−32767, 32767] — and whose
colors are byte triples, decoding the encoded wire buffer succeeds and
returns exactly the scaled value ÷1000 for every coordinate (so each
coordinate is reproduced to within 0.001 — here with zero error — of the
original) and exactly byte ÷255 for every color channel, with no
annotations. -/
theorem parseLssnap_encode_roundtrip
    (jsonParse : List (Fin 256) → Option (List AnnRecord))
    (verts : List ((Int × Int × Int) × (Nat × Nat × Nat)))
    (hb : ∀ v ∈ verts, -32767 ≤ v.1.1 ∧ v.1.1 ≤ 32767 ∧ -32767 ≤ v.1.2.1 ∧ v.1.2.1 ≤ 32767 ∧
      -32767 ≤ v.1.2.2 ∧ v.1.2.2 ≤ 32767)
    (hc : ∀ v ∈ verts, v.2.1 < 256 ∧ v.2.2.1 < 256 ∧ v.2.2.2 < 256)
    (hn : verts.length < 2147483648) :
    parseLssnap jsonParse (encodeLssnap verts) =
      .ok ⟨verts.length, posOf verts, colOf verts, []⟩ := by
  have hok : headerOk (encodeLssnap verts) := by
    unfold headerOk encodeLssnap
    refine ⟨?_, ?_, ?_, ?_⟩ <;>
      simp only [List.cons_append, List.getElem?_cons_zero, List.getElem?_cons_succ] <;>
      decide
  have hvc : getI32 (encodeLssnap verts) 4 = .ok verts.length := by
    unfold encodeLssnap encodeI32le
    simp only [List.cons_append, List.nil_append, List.append_assoc]
    simp only [getI32_cons_succ]
    exact getI32_encoded_nat verts.length _ hn
  have hlen : getI32 (encodeLssnap verts) 8 = .ok 0 := by
    unfold encodeLssnap encodeI32le
    simp only [List.cons_append, List.nil_append, List.append_assoc]
    simp only [getI32_cons_succ]
    simp only [Int.zero_emod, Int.toNat_zero, Nat.zero_div]
    exact getI32_zeros _
  have hRV : readVerticesAux (encodeLssnap verts) verts.length 16 =
      .ok (posOf verts, colOf verts) := by
    have h := readVerticesAux_encode verts
      [mkByte 76, mkByte 83, mkByte 83, mkByte 1,
       mkByte ((verts.length : Int) % 4294967296).toNat,
       mkByte (((verts.length : Int) % 4294967296).toNat / 256),
       mkByte (((verts.length : Int) % 4294967296).toNat / 65536),
       mkByte (((verts.length : Int) % 4294967296).toNat / 16777216),
       mkByte ((0 : Int) % 4294967296).toNat,
       mkByte (((0 : Int) % 4294967296).toNat / 256),
       mkByte (((0 : Int) % 4294967296).toNat / 65536),
       mkByte (((0 : Int) % 4294967296).toNat / 16777216),
       mkByte 0, mkByte 0, mkByte 0, mkByte 0] hb hc
    rw [show ([mkByte 76, mkByte 83, mkByte 83, mkByte 1,
       mkByte ((verts.length : Int) % 4294967296).toNat,
       mkByte (((verts.length : Int) % 4294967296).toNat / 256),
       mkByte (((verts.length : Int) % 4294967296).toNat / 65536),
       mkByte (((verts.length : Int) % 4294967296).toNat / 16777216),
       mkByte ((0 : Int) % 4294967296).toNat,
       mkByte (((0 : Int) % 4294967296).toNat / 256),
       mkByte (((0 : Int) % 4294967296).toNat / 65536),
       mkByte (((0 : Int) % 4294967296).toNat / 16777216),
       mkByte 0, mkByte 0, mkByte 0, mkByte 0] : List (Fin 256)).length = 16 from rfl] at h
    simp only [List.cons_append, List.nil_append] at h
    unfold encodeLssnap encodeI32le
    simp only [List.cons_append, List.nil_append, List.append_assoc]
    exact h
  have hshape := parseLssnap_ok_shape jsonParse (encodeLssnap verts)
    verts.length 0 (posOf verts) (colOf verts) hok hvc hlen (by positivity)
    (by simpa using hRV)
  rw [hshape]
  simp

/-! ### Witnesses for the decoder claims -/

/-- Witness for claim C1: the all-zero four-byte buffer yields the format
error, and the sixteen-byte buffer starting `"LSS"`+1 does not. -/
theorem parseLssnap_formatError_iff_bad_header_witness :
    parseLssnap (fun _ => none) [0, 0, 0, 0] = .error .formatError ∧
    parseLssnap (fun _ => none) (encodeLssnap []) ≠ .error .formatError :=
  ⟨(parseLssnap_formatError_iff_bad_header (fun _ => none) [0, 0, 0, 0] (by decide)).1
      (by decide),
   (parseLssnap_formatError_iff_bad_header (fun _ => none) (encodeLssnap []) (by decide)).2
      (by decide)⟩

/-- Witness for claim C2, at a decodable 17-byte buffer (one annotation
byte, zero vertices). -/
theorem parseLssnap_lengths_witness :
    ∃ d, parseLssnap (fun _ => none) [76, 83, 83, 1, 0, 0, 0, 0, 1, 0, 0, 0, 0, 0, 0, 0, 65] =
      .ok d ∧ d.positions.length = 3 * d.vertexCount.toNat ∧
      d.colors.length = 3 * d.vertexCount.toNat := by
  have hp : parseLssnap (fun _ => none)
      [76, 83, 83, 1, 0, 0, 0, 0, 1, 0, 0, 0, 0, 0, 0, 0, 65] = .ok ⟨0, [], [], []⟩ := by
    have h := parseLssnap_ok_shape (fun _ => none)
      [76, 83, 83, 1, 0, 0, 0, 0, 1, 0, 0, 0, 0, 0, 0, 0, 65] 0 1 [] []
      (by decide) (by decide) (by decide) (by decide) (by decide)
    simpa using h
  have h := parseLssnap_lengths (fun _ => none) _ _ hp
  exact ⟨_, hp, h.2.2.1, h.2.2.2⟩

/-- Witness for claim C3: the two-point set `(1.000, 2.000, −3.000)` and
`(0, 0, 0)` with colors `(255, 0, 0)` and `(0, 255, 0)` decodes back to
exactly those floats and to color ratios `(1, 0, 0)` and `(0, 1, 0)`. -/
theorem parseLssnap_encode_roundtrip_witness :
    parseLssnap (fun _ => none)
      (encodeLssnap [((1000, 2000, -3000), (255, 0, 0)), ((0, 0, 0), (0, 255, 0))]) =
      .ok ⟨2, [1, 2, -3, 0, 0, 0], [1, 0, 0, 0, 1, 0], []⟩ := by
  rw [parseLssnap_encode_roundtrip (fun _ => none)
    [((1000, 2000, -3000), (255, 0, 0)), ((0, 0, 0), (0, 255, 0))]
    (by decide) (by decide) (by decide)]
  norm_num [posOf, colOf]

/-- Witness for claim C7: a 17-byte buffer with one annotation byte that is
not valid JSON (the parse function returns `none`) still decodes, with no
annotations. -/
theorem parseLssnap_annotation_tolerance_witness :
    ∃ d, parseLssnap (fun _ => none) [76, 83, 83, 1, 0, 0, 0, 0, 1, 0, 0, 0, 0, 0, 0, 0, 65] =
      .ok d ∧ d.annotations = [] :=
  (parseLssnap_annotation_tolerance (fun _ => none)
      [76, 83, 83, 1, 0, 0, 0, 0, 1, 0, 0, 0, 0, 0, 0, 0, 65] 0 1
      (by decide) (by decide) (by decide) (by decide) (by decide)).1
    (by decide) (Or.inl rfl)

/-- Witness for claim C10 (amended): a valid header with `vertexCount = −1`
yields the range error. -/
theorem parseLssnap_rangeError_cases_witness :
    parseLssnap (fun _ => none) [76, 83, 83, 1, 255, 255, 255, 255, 0, 0, 0, 0] =
      .error .rangeError :=
  (parseLssnap_rangeError_cases (fun _ => none)
      [76, 83, 83, 1, 255, 255, 255, 255, 0, 0, 0, 0] (-1)
      (by decide) (by decide) (Or.inl (by decide))).1

/-! ### Subject-filter lemmas -/

theorem filterLoop_eq (xCut zCut yCut : ℚ) (l : List (Vec3 × Vec3)) :
    filterLoop xCut zCut yCut l =
      ((l.filter fun pc => decide (xCut ≤ pc.1.x ∧ pc.1.z ≤ zCut ∧ yCut ≤ pc.1.y)).map Prod.fst,
       (l.filter fun pc => decide (xCut ≤ pc.1.x ∧ pc.1.z ≤ zCut ∧ yCut ≤ pc.1.y)).map Prod.snd) := by
  induction l with
  | nil => rfl
  | cons pc rest ih =>
    obtain ⟨p, c⟩ := pc
    unfold filterLoop
    rw [ih]
    by_cases h : xCut ≤ p.x ∧ p.z ≤ zCut ∧ yCut ≤ p.y
    · simp [h, List.filter_cons]
    · simp [h, List.filter_cons]

set_option maxRecDepth 8000

/-- Claim C4: the subject filter keeps a vertex exactly when
`x ≥ centerX ∧ z ≤ minZ + zRange·depthFraction ∧ y ≥ minY + yRange·heightFraction`
over the bounding box of all points, appending kept vertices and colors in
original relative order (it is the `List.filter` of the keep predicate over
the vertex/color pairs); and on the synthetic cube spanning `[0, 10]` with
`depthFraction = 0.75` and `heightFraction = 0.5` it keeps exactly the
points with `x ≥ 5 ∧ z ≤ 7.5 ∧ y ≥ 5`, boundary values included. -/
theorem subjectFilter_keeps_iff :
    (∀ (p : Vec3) (rest cols : List Vec3) (depthFrac heightFrac : ℚ),
      subjectFilter depthFrac heightFrac (p :: rest) cols =
        ((((p :: rest).zip cols).filter fun pc =>
            decide (keepPred (bboxFrom p rest).1 (bboxFrom p rest).2 depthFrac heightFrac pc.1)).map
              Prod.fst,
         (((p :: rest).zip cols).filter fun pc =>
            decide (keepPred (bboxFrom p rest).1 (bboxFrom p rest).2 depthFrac heightFrac pc.1)).map
              Prod.snd)) ∧
    (subjectFilter (3/4) (1/2) cubeGrid cubeGrid).1 =
      cubeGrid.filter fun q => decide (5 ≤ q.x ∧ q.z ≤ 15/2 ∧ 5 ≤ q.y) := by
  constructor
  · intro p rest cols depthFrac heightFrac
    rcases hbb : bboxFrom p rest with ⟨lo, hi⟩
    simp only [subjectFilter, hbb]
    rw [filterLoop_eq]
    simp [keepPred]
  · norm_num [cubeGrid, cubeAxis, subjectFilter, bboxFrom, vmin, vmax, min_def, max_def,
      filterLoop, keepPred, List.filter]

/-! ### Camera framing -/

/-- Claim C5: framing Policy A gives, for every non-empty subset, the pose
with target = bounding-box center `c`, up = +Y, and position
`c + (−0.1·maxDim, +0.25·maxDim, +1.6·maxDim)` (the camera looks at the
target); on the unit box centered at the origin the position is
`(−0.1, 0.25, 1.6)` looking at `(0, 0, 0)`. -/
theorem framePolicyA_spec :
    (∀ (p : Vec3) (rest : List Vec3), ∃ pose, framePolicyA (p :: rest) = some pose ∧
      pose.target = boxCenter (p :: rest) ∧
      pose.up = ⟨0, 1, 0⟩ ∧
      pose.pos.x = pose.target.x - boxMaxDim (p :: rest) * (1/10) ∧
      pose.pos.y = pose.target.y + boxMaxDim (p :: rest) * (1/4) ∧
      pose.pos.z = pose.target.z + boxMaxDim (p :: rest) * (8/5)) ∧
    framePolicyA [⟨-1/2, -1/2, -1/2⟩, ⟨1/2, 1/2, 1/2⟩] =
      some ⟨⟨-1/10, 1/4, 8/5⟩, ⟨0, 0, 0⟩, ⟨0, 1, 0⟩⟩ := by
  constructor
  · intro p rest
    rcases hbb : bboxFrom p rest with ⟨lo, hi⟩
    simp only [framePolicyA, boxCenter, boxMaxDim, hbb]
    exact ⟨_, rfl, rfl, rfl, rfl, rfl, rfl⟩
  · norm_num [framePolicyA, bboxFrom, vmin, vmax, min_def, max_def]

/-- Claim C6: framing Policy B gives, for every non-empty subset, the pose
with the up axis reassigned to +Z, target = bounding-box center `c`, and
position `c + (−0.5·maxDim, −2.8·maxDim, 0)` (the camera looks at the
target after positioning). -/
theorem framePolicyB_spec :
    ∀ (p : Vec3) (rest : List Vec3), ∃ pose, framePolicyB (p :: rest) = some pose ∧
      pose.target = boxCenter (p :: rest) ∧
      pose.up = ⟨0, 0, 1⟩ ∧
      pose.pos.x = pose.target.x - boxMaxDim (p :: rest) * (1/2) ∧
      pose.pos.y = pose.target.y - boxMaxDim (p :: rest) * (14/5) ∧
      pose.pos.z = pose.target.z := by
  intro p rest
  rcases hbb : bboxFrom p rest with ⟨lo, hi⟩
  simp only [framePolicyB, boxCenter, boxMaxDim, hbb]
  exact ⟨_, rfl, rfl, rfl, rfl, rfl, rfl⟩

/-! ### Annotation overlay builder: skip rules -/

/-- Claim C8 counterexample: a freehand annotation whose `positions` length
is 7 — at least 6 but not a multiple of 3, hence failing the claimed shape
constraint — is not skipped: the build loop checks only `length ≥ 6` and
emits a stroke primitive (whose last point has undefined components). -/
theorem buildAnn_freehand_len7_not_skipped :
    buildAnnotations [⟨"freehand", some [1, 2, 3, 4, 5, 6, 7], none, none⟩] ≠ [] := by
  simp [buildAnnotations, buildAnn, strokePts]

/-- Claim C8 (amended): the overlay build loop is total and per-record: each
record contributes its own primitives independently of its siblings
(`buildAnnotations (a :: rest) = buildAnn a ++ buildAnnotations rest`), a
record with absent `positions` or fewer than 3 values is skipped, and a
freehand record with fewer than 6 values — in particular
`{type: "freehand", positions: [1, 2]}` — is skipped, contributing zero
primitives and leaving siblings untouched. (A freehand record with ≥ 6
values whose length is not a multiple of 3 is NOT skipped; see the
counterexample.) -/
theorem buildAnn_skip_rules :
    (∀ rest : List AnnRecord,
      buildAnnotations (⟨"freehand", some [1, 2], none, none⟩ :: rest) =
        buildAnnotations rest) ∧
    (∀ ann : AnnRecord, ann.positions = none → buildAnn ann = []) ∧
    (∀ (ann : AnnRecord) (ps : List ℚ), ann.positions = some ps → ps.length < 3 →
      buildAnn ann = []) ∧
    (∀ (ann : AnnRecord) (ps : List ℚ), ann.type = "freehand" → ann.positions = some ps →
      ps.length < 6 → buildAnn ann = []) ∧
    (∀ (a : AnnRecord) (rest : List AnnRecord),
      buildAnnotations (a :: rest) = buildAnn a ++ buildAnnotations rest) := by
  refine ⟨?_, ?_, ?_, ?_, ?_⟩
  · intro rest
    simp [buildAnnotations, buildAnn]
  · intro ann hpos
    simp [buildAnn, hpos]
  · intro ann ps hpos hlen
    simp [buildAnn, hpos, hlen]
  · intro ann ps htype hpos hlen
    by_cases h3 : ps.length < 3
    · simp [buildAnn, hpos, h3]
    · simp [buildAnn, hpos, h3, htype, show ¬ 6 ≤ ps.length by omega]
  · intro a rest
    simp [buildAnnotations]

/-- Witness for claim C8 (amended), at concrete records: the malformed
freehand `[1, 2]` leaves its valid circle sibling untouched, a point record
with a single value is skipped, and a record with no positions is
skipped. -/
theorem buildAnn_skip_rules_witness :
    buildAnnotations [⟨"freehand", some [1, 2], none, none⟩,
        ⟨"circle", some [0, 0, 0], none, none⟩] =
      buildAnnotations [⟨"circle", some [0, 0, 0], none, none⟩] ∧
    buildAnn ⟨"point", some [1], none, none⟩ = [] ∧
    buildAnn ⟨"box", none, none, none⟩ = [] :=
  ⟨buildAnn_skip_rules.1 _,
   buildAnn_skip_rules.2.2.1 _ [1] rfl (by decide),
   buildAnn_skip_rules.2.1 _ rfl⟩

/-! ### Trackball autorotation -/

/-- Claim C9 counterexample: the autorotation step is not a rotation about
the camera's up axis. With up = +Z (as the trackball variant sets it after
framing) and the camera at `(1, 0, 0)` from the target, a genuine rotation
pair `c = 3/5, s = 4/5` (`c² + s² = 1`, `s ≠ 0`) changes the up component
of the camera offset from 0 to `4/5`: the step rotates in the x–z plane
(about the world Y axis) instead. -/
theorem autorotateStep_not_about_up :
    ((3/5 : ℚ)^2 + (4/5)^2 = 1) ∧
    upComponent (autorotateStep (3/5) (4/5) ⟨⟨1, 0, 0⟩, ⟨0, 0, 0⟩, ⟨0, 0, 1⟩, true⟩) ≠
      upComponent ⟨⟨1, 0, 0⟩, ⟨0, 0, 0⟩, ⟨0, 0, 1⟩, true⟩ := by
  constructor
  · norm_num
  · norm_num [upComponent, autorotateStep, vdot]

/-- Claim C9 (amended): each frame with the autorotate flag set, the camera
position is rotated around the target by the fixed coefficients
`c = cos 0.0005`, `s = sin 0.0005` in the x–z plane — a 2D rotation about
the world Y axis that preserves the y component and, for any genuine
rotation pair `c² + s² = 1`, the squared x–z distance to the target — and
this synthetic rotation is applied before the controller's own update step
runs (the controller update is applied to the already-rotated state). The
rotation is about the world Y axis, not the camera's up axis, which is +Z
in this variant. -/
theorem animateFrame_autorotate (f : ViewerState → ViewerState) (c s : ℚ)
    (st : ViewerState) (h : st.autoRotating = true) :
    animateFrame f c s st = f (autorotateStep c s st) ∧
    (autorotateStep c s st).camPos.y = st.camPos.y ∧
    (autorotateStep c s st).target = st.target ∧
    (autorotateStep c s st).up = st.up ∧
    (autorotateStep c s st).camPos.x - st.target.x =
      (st.camPos.x - st.target.x) * c - (st.camPos.z - st.target.z) * s ∧
    (autorotateStep c s st).camPos.z - st.target.z =
      (st.camPos.x - st.target.x) * s + (st.camPos.z - st.target.z) * c ∧
    (c^2 + s^2 = 1 →
      ((autorotateStep c s st).camPos.x - st.target.x)^2 +
          ((autorotateStep c s st).camPos.z - st.target.z)^2 =
        (st.camPos.x - st.target.x)^2 + (st.camPos.z - st.target.z)^2) := by
  refine ⟨?_, rfl, rfl, rfl, ?_, ?_, ?_⟩
  · simp [animateFrame, h]
  · simp [autorotateStep]
    ring
  · simp [autorotateStep]
    ring
  · intro hcs
    simp only [autorotateStep]
    ring_nf
    linear_combination ((st.camPos.x - st.target.x)^2 + (st.camPos.z - st.target.z)^2) * hcs

/-- Witness for claim C9 (amended): one concrete frame with the flag set,
the controller update abstracted as the identity. -/
theorem animateFrame_autorotate_witness :
    animateFrame id (3/5) (4/5) ⟨⟨1, 0, 0⟩, ⟨0, 0, 0⟩, ⟨0, 0, 1⟩, true⟩ =
      autorotateStep (3/5) (4/5) ⟨⟨1, 0, 0⟩, ⟨0, 0, 0⟩, ⟨0, 0, 1⟩, true⟩ :=
  (animateFrame_autorotate id (3/5) (4/5) _ rfl).1

end PCV
